import Mathlib

/-!
Shallow embedding of the cyclomatic-complexity clang plugin.

The program is a single translation unit defining a
`CyclomaticComplexityVisitor` (a clang `RecursiveASTVisitor`) with:
  * `isInHeader`                 — eligibility test on a declaration's location,
  * `calculateCyclomaticComplexity` / `countBranchingStatements`
                                  — the recursive decision-point counter,
  * `VisitFunctionDecl`          — the per-function callback filling `ComplexityMap`,
  * `writeComplexityToFile`      — serialisation of the map to the report file.

Statements are modelled as a tree of nodes classified by kind, with a child
list that may contain null entries (clang `Stmt::children()` yields possibly
null `Stmt*`).  Machine `int` counters are modelled as `Nat`: the counts are
non-negative and the design treats the accumulator as an unbounded integer.
`std::string` ordering (used by `std::map`) is modelled as lexicographic
comparison of the character lists, and `llvm::StringRef::ends_with` as a
suffix test on the character list.
-/

namespace CCPlugin

/-- Kinds of clang statement nodes, as the source's `isa<...>` dispatch sees
them: the six decision-bearing classes are distinguished, every other class
is some non-branching kind. -/
inductive StmtKind where
  | ifStmt | switchStmt | forStmt | whileStmt | doStmt | conditionalOperator
  | compoundStmt | caseStmt | defaultStmt | breakStmt | returnStmt | declStmt
  | otherStmt
deriving DecidableEq, Repr

/-- A clang statement subtree: a node of some kind together with its
`children()` range, in which individual children may be null. -/
inductive Stmt where
  | node (kind : StmtKind) (children : List (Option Stmt))

/-- The kind of the root node of a statement. -/
def Stmt.kind : Stmt → StmtKind
  | .node k _ => k

/-- Embeds the `isa<IfStmt> || isa<SwitchStmt> || isa<ForStmt> ||
isa<WhileStmt> || isa<DoStmt> || isa<ConditionalOperator>` test of
`countBranchingStatements`. -/
def isBranchKind (k : StmtKind) : Bool :=
  match k with
  | .ifStmt | .switchStmt | .forStmt | .whileStmt | .doStmt
  | .conditionalOperator => true
  | _ => false

mutual

/-- Embeds `countBranchingStatements`: one point if the node itself is one of
the six branching classes, plus the recursive count over all children. -/
def countBranchingStatements (s : Stmt) : Nat :=
  match s with
  | .node k cs => (if isBranchKind k then 1 else 0) + countBranchingChildren cs

/-- Embeds the `for (auto child : stmt->children()) if (child) ...` loop of
`countBranchingStatements`: null children are skipped. -/
def countBranchingChildren (cs : List (Option Stmt)) : Nat :=
  match cs with
  | [] => 0
  | none :: rest => countBranchingChildren rest
  | some c :: rest => countBranchingStatements c + countBranchingChildren rest

end

/-- Embeds `calculateCyclomaticComplexity`: 0 on a null body (after printing
"Null statement encountered!"), otherwise 1 plus the branching count. -/
def calculateCyclomaticComplexity (stmt : Option Stmt) : Nat :=
  match stmt with
  | none => 0
  | some s => 1 + countBranchingStatements s

mutual

/-- Specification-side view: the list of all (non-null) nodes of the subtree,
root first. -/
def subtreeNodes (s : Stmt) : List Stmt :=
  match s with
  | .node k cs => .node k cs :: subtreeNodesChildren cs

/-- Specification-side view: all nodes of the subtrees hanging off a child
list. -/
def subtreeNodesChildren (cs : List (Option Stmt)) : List Stmt :=
  match cs with
  | [] => []
  | none :: rest => subtreeNodesChildren rest
  | some c :: rest => subtreeNodes c ++ subtreeNodesChildren rest

end

/-- Specification-side decision-point count: the number of nodes in the entire
subtree whose kind is one of the six branching kinds. -/
def decisionNodeCount (s : Stmt) : Nat :=
  (subtreeNodes s).countP (fun n => isBranchKind n.kind)

mutual

theorem countBranchingStatements_eq_countP (s : Stmt) :
    countBranchingStatements s
      = (subtreeNodes s).countP (fun n => isBranchKind n.kind) := by
  match s with
  | .node k cs =>
    rw [countBranchingStatements, subtreeNodes, List.countP_cons,
      countBranchingChildren_eq_countP cs]
    simp [Stmt.kind, Nat.add_comm]

theorem countBranchingChildren_eq_countP (cs : List (Option Stmt)) :
    countBranchingChildren cs
      = (subtreeNodesChildren cs).countP (fun n => isBranchKind n.kind) := by
  match cs with
  | [] => rfl
  | none :: rest =>
    rw [countBranchingChildren, subtreeNodesChildren,
      countBranchingChildren_eq_countP rest]
  | some c :: rest =>
    rw [countBranchingChildren, subtreeNodesChildren, List.countP_append,
      countBranchingStatements_eq_countP c, countBranchingChildren_eq_countP rest]

end

/-- Embeds `llvm::StringRef::ends_with` on the character sequence of the
file name. -/
def strEndsWith (s suffix : String) : Bool :=
  suffix.data.isSuffixOf s.data

/-- Lexicographic comparison of character lists: the order `std::map` uses on
`std::string` keys. -/
def charListLt : List Char → List Char → Bool
  | [], [] => false
  | [], _ :: _ => true
  | _ :: _, [] => false
  | a :: as, b :: bs => if a < b then true else if b < a then false else charListLt as bs

/-- Embeds `std::string::operator<` (lexicographic). -/
def strLt (a b : String) : Bool := charListLt a.data b.data

/-- The location data `isInHeader` consults: the result of
`context->getFullLoc(decl->getLocation())`.  `fileEntry` is the name of the
`FileEntry` behind the location; `none` models `getFileEntry()` returning a
null pointer, which happens when the declaration has no valid source
location. -/
structure SourceLoc where
  isInSystemHeader : Bool
  fileEntry : Option String
deriving DecidableEq, Repr

/-- Embeds `isInHeader`.  Returns `none` when the C++ code dereferences the
null pointer returned by `getFileEntry()` — `floc.getFileEntry()->getName()`
has no null check, so a location without a file entry that is not flagged as
a system header is a crash (undefined behaviour), not a boolean answer. -/
def isInHeader (loc : SourceLoc) : Option Bool :=
  if loc.isInSystemHeader then some true
  else
    match loc.fileEntry with
    | none => none
    | some entry => some (strEndsWith entry ".h" || strEndsWith entry ".hpp")

/-- A function declaration as the Walker sees it: display name, location, and
optional body (`hasBody()` is `body.isSome`, `getBody()` is the payload). -/
structure FunctionDecl where
  name : String
  loc : SourceLoc
  body : Option Stmt

/-- The `std::map<std::string, int>` member, as an association list kept
sorted by key. -/
abbrev ComplexityMap := List (String × Nat)

/-- Embeds `ComplexityMap[name] = complexity` — `std::map::operator[]` plus
assignment: insert at the sorted position, overwriting an equal key in
place. -/
def mapInsert (k : String) (v : Nat) : ComplexityMap → ComplexityMap
  | [] => [(k, v)]
  | (k', v') :: rest =>
    if strLt k k' then (k, v) :: (k', v') :: rest
    else if strLt k' k then (k', v') :: mapInsert k v rest
    else (k', v) :: rest

/-- Embeds `VisitFunctionDecl`: skip header declarations (returning `true`),
record `calculateCyclomaticComplexity(getBody())` under the display name when
a body exists, and return `true` in every case.  The outer `Option` is `none`
when `isInHeader` crashes on a location without a file entry. -/
def VisitFunctionDecl (m : ComplexityMap) (func : FunctionDecl) :
    Option (ComplexityMap × Bool) :=
  match isInHeader func.loc with
  | none => none
  | some true => some (m, true)
  | some false =>
    match func.body with
    | none => some (m, true)
    | some b =>
      some (mapInsert func.name (calculateCyclomaticComplexity (some b)) m, true)

/-- One translation-unit traversal, with `RecursiveASTVisitor` semantics: a
`false` return from the callback stops the traversal early; a crash (`none`)
aborts the run. -/
def runWalker (m : ComplexityMap) : List FunctionDecl → Option ComplexityMap
  | [] => some m
  | f :: fs =>
    match VisitFunctionDecl m f with
    | none => none
    | some (m', b) => if b then runWalker m' fs else some m'

/-- Reference traversal that never stops early, for comparison with
`runWalker`. -/
def runWalkerAll (m : ComplexityMap) : List FunctionDecl → Option ComplexityMap
  | [] => some m
  | f :: fs =>
    match VisitFunctionDecl m f with
    | none => none
    | some (m', _) => runWalkerAll m' fs

/-- Embeds one line of the report loop:
`outFile << "Function: " << entry.first << ", Cyclomatic Complexity: " << entry.second << std::endl`. -/
def formatLine (entry : String × Nat) : String :=
  "Function: " ++ entry.1 ++ ", Cyclomatic Complexity: " ++ toString entry.2

/-- Outcome of `writeComplexityToFile`: the map after the call (the method
never mutates it), the report lines if the sink opened, and the stderr
message if it did not. -/
structure WriteOutcome where
  mapAfter : ComplexityMap
  report : Option (List String)
  errMsg : Option String
deriving DecidableEq, Repr

/-- Embeds `writeComplexityToFile`: if the `ofstream` fails to open, print an
error to stderr and return; otherwise emit one formatted line per map entry,
in the map's (key-sorted) iteration order. -/
def writeComplexityToFile (isOpen : Bool) (filename : String)
    (m : ComplexityMap) : WriteOutcome :=
  if isOpen then ⟨m, some (m.map formatLine), none⟩
  else ⟨m, none, some ("Error opening file: " ++ filename)⟩

/-- Embeds `HandleTranslationUnit`: traverse the declarations, then write the
report to "results.cy"; `sinkOpen` says whether that file could be opened. -/
def HandleTranslationUnit (sinkOpen : Bool) (decls : List FunctionDecl) :
    Option (ComplexityMap × Option (List String)) :=
  match runWalker [] decls with
  | none => none
  | some m => some (m, (writeComplexityToFile sinkOpen "results.cy" m).report)

theorem charListLt_cons (a b : Char) (as bs : List Char) :
    charListLt (a :: as) (b :: bs)
      = if a < b then true else if b < a then false else charListLt as bs := rfl

theorem charListLt_irrefl (as : List Char) : charListLt as as = false := by
  induction as with
  | nil => rfl
  | cons a as ih => simp [charListLt_cons, ih]

theorem charListLt_trans {as bs cs : List Char} (h1 : charListLt as bs = true)
    (h2 : charListLt bs cs = true) : charListLt as cs = true := by
  induction as generalizing bs cs with
  | nil =>
    cases bs with
    | nil => simp [charListLt] at h1
    | cons b bs' =>
      cases cs with
      | nil => simp [charListLt] at h2
      | cons c cs' => rfl
  | cons a as ih =>
    cases bs with
    | nil => simp [charListLt] at h1
    | cons b bs' =>
      cases cs with
      | nil => simp [charListLt] at h2
      | cons c cs' =>
        rcases lt_trichotomy a b with hab | hab | hab
        · rcases lt_trichotomy b c with hbc | hbc | hbc
          · simp [charListLt_cons, lt_trans hab hbc]
          · subst hbc; simp [charListLt_cons, hab]
          · simp [charListLt_cons, asymm hbc, hbc] at h2
        · subst hab
          simp only [charListLt_cons, lt_irrefl, if_false] at h1
          rcases lt_trichotomy a c with hac | hac | hac
          · simp [charListLt_cons, hac]
          · subst hac
            simp only [charListLt_cons, lt_irrefl, if_false] at h2 ⊢
            exact ih h1 h2
          · simp [charListLt_cons, asymm hac, hac] at h2
        · simp [charListLt_cons, asymm hab, hab] at h1

theorem charListLt_asymm {as bs : List Char} (h : charListLt as bs = true) :
    charListLt bs as = false := by
  by_contra hc
  have h' : charListLt bs as = true := by
    cases hb : charListLt bs as
    · exact absurd hb hc
    · rfl
  have := charListLt_trans h h'
  rw [charListLt_irrefl] at this
  exact Bool.false_ne_true this

theorem charListLt_eq_of_not_lt {as bs : List Char}
    (h1 : charListLt as bs = false) (h2 : charListLt bs as = false) : as = bs := by
  induction as generalizing bs with
  | nil =>
    cases bs with
    | nil => rfl
    | cons b bs' => simp [charListLt] at h1
  | cons a as ih =>
    cases bs with
    | nil => simp [charListLt] at h2
    | cons b bs' =>
      rcases lt_trichotomy a b with hab | hab | hab
      · simp [charListLt_cons, hab] at h1
      · subst hab
        simp only [charListLt_cons, lt_irrefl, if_false] at h1 h2
        rw [ih h1 h2]
      · simp [charListLt_cons, asymm hab, hab] at h2

theorem strLt_irrefl (s : String) : strLt s s = false :=
  charListLt_irrefl s.data

theorem strLt_trans {a b c : String} (h1 : strLt a b = true)
    (h2 : strLt b c = true) : strLt a c = true :=
  charListLt_trans h1 h2

theorem strLt_asymm {a b : String} (h : strLt a b = true) : strLt b a = false :=
  charListLt_asymm h

theorem strLt_eq_of_not_lt {a b : String} (h1 : strLt a b = false)
    (h2 : strLt b a = false) : a = b := by
  cases a with
  | mk da =>
    cases b with
    | mk db => exact congrArg String.mk (charListLt_eq_of_not_lt h1 h2)

/-- The `std::map` key invariant: entries strictly increasing by key. -/
def sortedKeys (m : ComplexityMap) : Prop :=
  List.Pairwise (fun a b => strLt a.1 b.1 = true) m

theorem mapInsert_nil (k : String) (v : Nat) : mapInsert k v [] = [(k, v)] := rfl

theorem mapInsert_cons_lt {k k' : String} {v v' : Nat} {rest : ComplexityMap}
    (h : strLt k k' = true) :
    mapInsert k v ((k', v') :: rest) = (k, v) :: (k', v') :: rest := by
  rw [mapInsert, if_pos h]

theorem mapInsert_cons_gt {k k' : String} {v v' : Nat} {rest : ComplexityMap}
    (h1 : strLt k k' = false) (h2 : strLt k' k = true) :
    mapInsert k v ((k', v') :: rest) = (k', v') :: mapInsert k v rest := by
  rw [mapInsert, if_neg (by simp [h1]), if_pos h2]

theorem mapInsert_cons_eq {k k' : String} {v v' : Nat} {rest : ComplexityMap}
    (h1 : strLt k k' = false) (h2 : strLt k' k = false) :
    mapInsert k v ((k', v') :: rest) = (k', v) :: rest := by
  rw [mapInsert, if_neg (by simp [h1]), if_neg (by simp [h2])]

theorem mem_mapInsert {m : ComplexityMap} {k : String} {v : Nat}
    {e : String × Nat} (h : e ∈ mapInsert k v m) : e.1 = k ∨ e ∈ m := by
  induction m with
  | nil =>
    rw [mapInsert_nil, List.mem_singleton] at h
    rw [h]; exact Or.inl rfl
  | cons hd rest ih =>
    obtain ⟨k', v'⟩ := hd
    cases h1 : strLt k k' with
    | true =>
      rw [mapInsert_cons_lt h1] at h
      rcases List.mem_cons.1 h with h | h
      · rw [h]; exact Or.inl rfl
      · exact Or.inr h
    | false =>
      cases h2 : strLt k' k with
      | true =>
        rw [mapInsert_cons_gt h1 h2] at h
        rcases List.mem_cons.1 h with h | h
        · rw [h]; exact Or.inr (List.mem_cons_self _ _)
        · rcases ih h with h | h
          · exact Or.inl h
          · exact Or.inr (List.mem_cons_of_mem _ h)
      | false =>
        rw [mapInsert_cons_eq h1 h2] at h
        rcases List.mem_cons.1 h with h | h
        · rw [h]; exact Or.inl (strLt_eq_of_not_lt h2 h1)
        · exact Or.inr (List.mem_cons_of_mem _ h)

theorem mapInsert_sorted {m : ComplexityMap} {k : String} {v : Nat}
    (hs : sortedKeys m) : sortedKeys (mapInsert k v m) := by
  induction m with
  | nil => exact List.pairwise_singleton _ _
  | cons hd rest ih =>
    obtain ⟨k', v'⟩ := hd
    rw [sortedKeys, List.pairwise_cons] at hs
    obtain ⟨hhd, hrest⟩ := hs
    cases h1 : strLt k k' with
    | true =>
      rw [mapInsert_cons_lt h1, sortedKeys, List.pairwise_cons]
      refine ⟨?_, List.Pairwise.cons hhd hrest⟩
      intro e he
      rcases List.mem_cons.1 he with he | he
      · rw [he]; exact h1
      · exact strLt_trans h1 (hhd e he)
    | false =>
      cases h2 : strLt k' k with
      | true =>
        rw [mapInsert_cons_gt h1 h2, sortedKeys, List.pairwise_cons]
        refine ⟨?_, ih hrest⟩
        intro e he
        rcases mem_mapInsert he with he | he
        · rw [he]; exact h2
        · exact hhd e he
      | false =>
        rw [mapInsert_cons_eq h1 h2, sortedKeys, List.pairwise_cons]
        exact ⟨hhd, hrest⟩

theorem mapInsert_mapInsert (m : ComplexityMap) (k : String) (v₁ v₂ : Nat) :
    mapInsert k v₂ (mapInsert k v₁ m) = mapInsert k v₂ m := by
  induction m with
  | nil =>
    rw [mapInsert_nil, mapInsert_cons_eq (strLt_irrefl k) (strLt_irrefl k),
      mapInsert_nil]
  | cons hd rest ih =>
    obtain ⟨k', u⟩ := hd
    cases h1 : strLt k k' with
    | true =>
      rw [mapInsert_cons_lt h1, mapInsert_cons_eq (strLt_irrefl k) (strLt_irrefl k),
        mapInsert_cons_lt h1]
    | false =>
      cases h2 : strLt k' k with
      | true =>
        rw [mapInsert_cons_gt h1 h2, mapInsert_cons_gt h1 h2,
          mapInsert_cons_gt h1 h2, ih]
      | false =>
        rw [mapInsert_cons_eq h1 h2, mapInsert_cons_eq h1 h2,
          mapInsert_cons_eq h1 h2]

theorem mem_mapInsert_self_iff {m : ComplexityMap} {k : String} {v : Nat}
    (hs : sortedKeys m) (v' : Nat) : (k, v') ∈ mapInsert k v m ↔ v' = v := by
  induction m with
  | nil =>
    rw [mapInsert_nil, List.mem_singleton, Prod.ext_iff]
    simp
  | cons hd rest ih =>
    obtain ⟨k₁, v₁⟩ := hd
    rw [sortedKeys, List.pairwise_cons] at hs
    obtain ⟨hhd, hrest⟩ := hs
    cases h1 : strLt k k₁ with
    | true =>
      rw [mapInsert_cons_lt h1]
      constructor
      · intro h
        rcases List.mem_cons.1 h with h | h
        · exact (Prod.ext_iff.1 h).2
        · rcases List.mem_cons.1 h with h | h
          · have hk : k = k₁ := (Prod.ext_iff.1 h).1
            rw [← hk, strLt_irrefl] at h1
            exact absurd h1 Bool.false_ne_true
          · have hgt := hhd _ h
            have h3 := strLt_trans h1 hgt
            rw [strLt_irrefl] at h3
            exact absurd h3 Bool.false_ne_true
      · intro hv; rw [hv]; exact List.mem_cons_self _ _
    | false =>
      cases h2 : strLt k₁ k with
      | true =>
        rw [mapInsert_cons_gt h1 h2]
        constructor
        · intro h
          rcases List.mem_cons.1 h with h | h
          · have hk : k = k₁ := (Prod.ext_iff.1 h).1
            rw [hk, strLt_irrefl] at h2
            exact absurd h2 Bool.false_ne_true
          · exact (ih hrest).1 h
        · intro hv
          exact List.mem_cons_of_mem _ ((ih hrest).2 hv)
      | false =>
        have hk : k₁ = k := strLt_eq_of_not_lt h2 h1
        subst hk
        rw [mapInsert_cons_eq h1 h2]
        constructor
        · intro h
          rcases List.mem_cons.1 h with h | h
          · exact (Prod.ext_iff.1 h).2
          · have hgt := hhd _ h
            rw [strLt_irrefl] at hgt
            exact absurd hgt Bool.false_ne_true
        · intro hv; rw [hv]; exact List.mem_cons_self _ _

theorem sortedKeys_nodup {m : ComplexityMap} (hs : sortedKeys m) :
    (m.map Prod.fst).Nodup := by
  refine List.Pairwise.map Prod.fst ?_ hs
  intro a b hab heq
  rw [heq, strLt_irrefl] at hab
  exact Bool.false_ne_true hab

/-- The exclusion condition of the claim, read off the same location data the
code consults: in a system header, or the defining file path ends in `.h` or
`.hpp`. -/
def headerExcluded (loc : SourceLoc) : Bool :=
  loc.isInSystemHeader ||
    (match loc.fileEntry with
     | none => false
     | some entry => strEndsWith entry ".h" || strEndsWith entry ".hpp")

theorem isInHeader_of_headerExcluded {loc : SourceLoc}
    (h : headerExcluded loc = true) : isInHeader loc = some true := by
  obtain ⟨sys, fe⟩ := loc
  cases sys with
  | true => rfl
  | false =>
    cases fe with
    | none => exact absurd h Bool.false_ne_true
    | some entry => exact congrArg some h

theorem visit_result {m : ComplexityMap} {f : FunctionDecl}
    {m' : ComplexityMap} {b : Bool}
    (h : VisitFunctionDecl m f = some (m', b)) :
    b = true ∧ (m' = m ∨ ∃ c, m' = mapInsert f.name c m) := by
  rw [VisitFunctionDecl] at h
  cases hih : isInHeader f.loc with
  | none => rw [hih] at h; exact absurd h (by simp)
  | some inHdr =>
    rw [hih] at h
    cases inHdr with
    | true =>
      obtain ⟨hm, hb⟩ := Prod.ext_iff.1 (Option.some.inj h)
      exact ⟨hb.symm, Or.inl hm.symm⟩
    | false =>
      cases hb : f.body with
      | none =>
        rw [hb] at h
        obtain ⟨hm, hbool⟩ := Prod.ext_iff.1 (Option.some.inj h)
        exact ⟨hbool.symm, Or.inl hm.symm⟩
      | some body =>
        rw [hb] at h
        obtain ⟨hm, hbool⟩ := Prod.ext_iff.1 (Option.some.inj h)
        exact ⟨hbool.symm,
          Or.inr ⟨calculateCyclomaticComplexity (some body), hm.symm⟩⟩

theorem runWalker_eq_runWalkerAll (m : ComplexityMap)
    (decls : List FunctionDecl) : runWalker m decls = runWalkerAll m decls := by
  induction decls generalizing m with
  | nil => rfl
  | cons f fs ih =>
    rw [runWalker, runWalkerAll]
    cases hv : VisitFunctionDecl m f with
    | none => rfl
    | some r =>
      obtain ⟨m', b⟩ := r
      have hb := (visit_result hv).1
      subst hb
      exact ih m'

theorem runWalker_sorted {m : ComplexityMap} {decls : List FunctionDecl}
    {mf : ComplexityMap} (hs : sortedKeys m)
    (h : runWalker m decls = some mf) : sortedKeys mf := by
  induction decls generalizing m with
  | nil => rw [runWalker] at h; rw [← Option.some.inj h]; exact hs
  | cons f fs ih =>
    rw [runWalker] at h
    cases hv : VisitFunctionDecl m f with
    | none =>
      rw [hv] at h
      exact Option.noConfusion h
    | some r =>
      obtain ⟨m', b⟩ := r
      have hb := (visit_result hv).1
      subst hb
      rw [hv] at h
      have h' : runWalker m' fs = some mf := h
      have hs' : sortedKeys m' := by
        rcases (visit_result hv).2 with hm | ⟨c, hm⟩
        · rw [hm]; exact hs
        · rw [hm]; exact mapInsert_sorted hs
      exact ih hs' h'

theorem runWalker_not_mem {decls : List FunctionDecl} {nm : String}
    {m mf : ComplexityMap}
    (hex : ∀ f ∈ decls, f.name = nm → headerExcluded f.loc = true)
    (h0 : ∀ v, (nm, v) ∉ m) (h : runWalker m decls = some mf) :
    ∀ v, (nm, v) ∉ mf := by
  induction decls generalizing m with
  | nil => rw [runWalker] at h; rw [← Option.some.inj h]; exact h0
  | cons f fs ih =>
    rw [runWalker] at h
    cases hv : VisitFunctionDecl m f with
    | none =>
      rw [hv] at h
      exact Option.noConfusion h
    | some r =>
      obtain ⟨m', b⟩ := r
      have hb := (visit_result hv).1
      subst hb
      rw [hv] at h
      have h' : runWalker m' fs = some mf := h
      have hex' : ∀ g ∈ fs, g.name = nm → headerExcluded g.loc = true :=
        fun g hg => hex g (List.mem_cons_of_mem _ hg)
      have h0' : ∀ v, (nm, v) ∉ m' := by
        by_cases hname : f.name = nm
        · have hexf : headerExcluded f.loc = true :=
            hex f (List.mem_cons_self _ _) hname
          have : VisitFunctionDecl m f = some (m, true) := by
            rw [VisitFunctionDecl, isInHeader_of_headerExcluded hexf]
          rw [this] at hv
          have hm : m = m' := (Prod.ext_iff.1 (Option.some.inj hv)).1
          rw [← hm]
          exact h0
        · rcases (visit_result hv).2 with hm | ⟨c, hm⟩
          · rw [hm]; exact h0
          · rw [hm]
            intro v hmem
            rcases mem_mapInsert hmem with hk | hk
            · exact hname hk.symm
            · exact h0 v hk
      exact ih hex' h0' h'

theorem sorted_perm_eq {m₁ m₂ : ComplexityMap} (hp : m₁.Perm m₂)
    (h₁ : sortedKeys m₁) (h₂ : sortedKeys m₂) : m₁ = m₂ := by
  haveI : IsAntisymm (String × Nat) (fun a b => strLt a.1 b.1 = true) := by
    constructor
    intro a b hab hba
    rw [strLt_asymm hab] at hba
    exact absurd hba Bool.false_ne_true
  exact List.eq_of_perm_of_sorted hp h₁ h₂

theorem countBranchingChildren_eq_sum (cs : List (Option Stmt)) :
    countBranchingChildren cs
      = ((cs.filterMap id).map countBranchingStatements).sum := by
  induction cs with
  | nil => rfl
  | cons c rest ih =>
    cases c with
    | none =>
      show countBranchingChildren rest = _
      simp [ih]
    | some s =>
      show countBranchingStatements s + countBranchingChildren rest = _
      simp [ih]

/-- Concrete declarations used by the witnesses below. -/
def okFunc : FunctionDecl :=
  ⟨"ok", ⟨false, some "main.cpp"⟩, some (.node .compoundStmt [])⟩

def hFileFunc : FunctionDecl :=
  ⟨"inlFn", ⟨false, some "util.h"⟩, some (.node .compoundStmt [])⟩

def invalidLocFunc : FunctionDecl :=
  ⟨"implicitFn", ⟨false, none⟩, none⟩

def funcAlpha : FunctionDecl :=
  ⟨"alpha", ⟨false, some "main.cpp"⟩,
    some (.node .compoundStmt [some (.node .ifStmt [some (.node .returnStmt [])])])⟩

def funcBeta : FunctionDecl :=
  ⟨"beta", ⟨false, some "main.cpp"⟩, some (.node .compoundStmt [])⟩

/-- A switch statement with five case arms and no other branching
construct. -/
def switchFiveArms : Stmt :=
  .node .switchStmt [some (.node .compoundStmt [
    some (.node .caseStmt [some (.node .breakStmt [])]),
    some (.node .caseStmt [some (.node .breakStmt [])]),
    some (.node .caseStmt [some (.node .breakStmt [])]),
    some (.node .caseStmt [some (.node .breakStmt [])]),
    some (.node .caseStmt [some (.node .breakStmt [])])])]

/-- C1: for every non-null function body tree, the computed cyclomatic
complexity equals 1 plus the number of nodes in the entire subtree whose kind
is if / switch / for / while / do-while / conditional-operator; every other
node kind contributes 0 but its children are still traversed and counted. -/
theorem claim1_complexity_eq_one_plus_decision_nodes (t : Stmt) :
    calculateCyclomaticComplexity (some t) = 1 + decisionNodeCount t := by
  show 1 + countBranchingStatements t = 1 + decisionNodeCount t
  rw [countBranchingStatements_eq_countP, decisionNodeCount]

/-- C2: a function declaration located in a system header, or whose defining
file path ends in ".h" or ".hpp", is excluded by the Walker: its name never
appears in the ComplexityMap produced by a (completed) run in which every
declaration carrying that name is so excluded. -/
theorem claim2_header_functions_never_in_map (decls : List FunctionDecl)
    (nm : String) (mf : ComplexityMap)
    (hex : ∀ f ∈ decls, f.name = nm → headerExcluded f.loc = true)
    (hrun : runWalker [] decls = some mf) :
    ∀ v, (nm, v) ∉ mf :=
  runWalker_not_mem hex (fun _ => List.not_mem_nil _) hrun

theorem claim2_witness : (("inlFn", 5) : String × Nat) ∉ ([("ok", 1)] : ComplexityMap) :=
  claim2_header_functions_never_in_map [hFileFunc, okFunc] "inlFn" [("ok", 1)]
    (by decide) (by decide) 5

/-- C3: the claim says a declaration without a valid source location is
treated as excluded and skipped without crashing or halting the rest of the
analysis.  The code does the opposite: `isInHeader` dereferences
`floc.getFileEntry()` with no null check, so a declaration whose location has
no file entry (and is not in a system header) crashes (modelled as `none`),
and the whole traversal — including every later declaration — is lost. -/
theorem claim3_invalid_location_crashes_run :
    isInHeader ⟨false, none⟩ = none ∧
    runWalker [] [invalidLocFunc, okFunc] = none :=
  ⟨rfl, rfl⟩

/-- C4: on a null body root the calculator returns 0 (distinguishable from
the genuine minimum complexity 1 that every real body attains), and a
function without a body is never recorded in the ComplexityMap. -/
theorem claim4_null_body_zero_and_not_recorded :
    calculateCyclomaticComplexity none = 0 ∧
    (∀ t : Stmt, 1 ≤ calculateCyclomaticComplexity (some t)) ∧
    (∀ (m : ComplexityMap) (f : FunctionDecl) (r : ComplexityMap × Bool),
      f.body = none → VisitFunctionDecl m f = some r → r.1 = m) := by
  refine ⟨rfl, ?_, ?_⟩
  · intro t
    show 1 ≤ 1 + countBranchingStatements t
    exact Nat.le_add_right 1 _
  · intro m f r hb hv
    rw [VisitFunctionDecl] at hv
    cases hih : isInHeader f.loc with
    | none =>
      rw [hih] at hv
      exact Option.noConfusion hv
    | some inHdr =>
      rw [hih] at hv
      cases inHdr with
      | true =>
        have hr : (m, true) = r := Option.some.inj hv
        rw [← hr]
      | false =>
        rw [hb] at hv
        have hr : (m, true) = r := Option.some.inj hv
        rw [← hr]

theorem claim4_witness :
    (([("g", 2)], true) : ComplexityMap × Bool).1 = [("g", 2)] :=
  claim4_null_body_zero_and_not_recorded.2.2 [("g", 2)]
    ⟨"f", ⟨false, some "main.cpp"⟩, none⟩ ([("g", 2)], true) rfl (by decide)

/-- C5: the persisted report holds exactly one line per recorded function in
the format "Function: name, Cyclomatic Complexity: value", the map a
completed run produces is strictly sorted by function name, and any two runs
whose maps hold the same entries — regardless of traversal order — serialize
to the identical report. -/
theorem claim5_report_format_sorted_deterministic (filename : String)
    (decls decls' : List FunctionDecl) (mf mf' : ComplexityMap)
    (h : runWalker [] decls = some mf) (h' : runWalker [] decls' = some mf')
    (hperm : mf.Perm mf') :
    (writeComplexityToFile true filename mf).report = some (mf.map formatLine) ∧
    sortedKeys mf ∧
    writeComplexityToFile true filename mf
      = writeComplexityToFile true filename mf' := by
  have hs : sortedKeys mf := runWalker_sorted List.Pairwise.nil h
  have hs' : sortedKeys mf' := runWalker_sorted List.Pairwise.nil h'
  refine ⟨rfl, hs, ?_⟩
  rw [sorted_perm_eq hperm hs hs']

theorem claim5_witness :
    (writeComplexityToFile true "results.cy" [("alpha", 2), ("beta", 1)]).report
      = some (([("alpha", 2), ("beta", 1)] : ComplexityMap).map formatLine) :=
  (claim5_report_format_sorted_deterministic "results.cy"
    [funcAlpha, funcBeta] [funcBeta, funcAlpha]
    [("alpha", 2), ("beta", 1)] [("alpha", 2), ("beta", 1)]
    (by decide) (by decide) (List.Perm.refl _)).1

/-- C6: the ComplexityMap keeps at most one entry per function name: writing
a second value under an existing name overwrites the first, the only value
retained for that name is the last one written, and the key set stays
duplicate-free. -/
theorem claim6_duplicate_name_overwrites (m : ComplexityMap) (k : String)
    (v₁ v₂ : Nat) (hs : sortedKeys m) :
    mapInsert k v₂ (mapInsert k v₁ m) = mapInsert k v₂ m ∧
    (∀ v, (k, v) ∈ mapInsert k v₂ m ↔ v = v₂) ∧
    ((mapInsert k v₂ m).map Prod.fst).Nodup :=
  ⟨mapInsert_mapInsert m k v₁ v₂,
   fun _ => mem_mapInsert_self_iff hs _,
   sortedKeys_nodup (mapInsert_sorted hs)⟩

theorem claim6_witness :
    mapInsert "dup" 3 (mapInsert "dup" 1 [("a", 2)]) = mapInsert "dup" 3 [("a", 2)] :=
  (claim6_duplicate_name_overwrites [("a", 2)] "dup" 1 3
    (List.pairwise_singleton _ _)).1

/-- C7: a body whose only branching construct is one switch statement with
five case arms has complexity exactly 2 — the switch contributes exactly 1
no matter how many arms it has. -/
theorem claim7_switch_five_arms_complexity_two :
    calculateCyclomaticComplexity
      (some (.node .compoundStmt [some switchFiveArms])) = 2 := by
  decide

/-- C8: when the report sink cannot be opened, `writeComplexityToFile`
returns normally with only a stderr message, leaving the map exactly as it
was; the run's in-memory results are identical to those of a run whose sink
did open — only the persisted report is forfeited. -/
theorem claim8_sink_failure_nonfatal (filename : String) (m : ComplexityMap)
    (decls : List FunctionDecl) (h : runWalker [] decls = some m) :
    writeComplexityToFile false filename m
      = ⟨m, none, some ("Error opening file: " ++ filename)⟩ ∧
    HandleTranslationUnit false decls = some (m, none) ∧
    (HandleTranslationUnit true decls).map Prod.fst = some m := by
  refine ⟨rfl, ?_, ?_⟩
  · rw [HandleTranslationUnit, h]
    rfl
  · rw [HandleTranslationUnit, h]
    rfl

theorem claim8_witness :
    writeComplexityToFile false "results.cy" [("ok", 1)]
      = ⟨[("ok", 1)], none, some ("Error opening file: " ++ "results.cy")⟩ :=
  (claim8_sink_failure_nonfatal "results.cy" [("ok", 1)] [okFunc] (by decide)).1

/-- C9: the recursive decision-point count is total on every statement tree
even when a child list contains null entries: null children are skipped
without being dereferenced and contribute 0 to the count. -/
theorem claim9_null_children_skipped (k : StmtKind) (cs : List (Option Stmt)) :
    countBranchingStatements (.node k cs)
      = (if isBranchKind k then 1 else 0)
        + ((cs.filterMap id).map countBranchingStatements).sum ∧
    countBranchingStatements (.node k (none :: cs))
      = countBranchingStatements (.node k cs) := by
  constructor
  · show (if isBranchKind k then 1 else 0) + countBranchingChildren cs = _
    rw [countBranchingChildren_eq_sum]
  · show (if isBranchKind k then 1 else 0) + countBranchingChildren (none :: cs)
      = (if isBranchKind k then 1 else 0) + countBranchingChildren cs
    rfl

/-- C10: the per-function callback returns true on every path on which it
returns at all — header-excluded, bodiless, or analyzed-and-recorded — so
the traversal is never cut short by a false return: the walk visits every
declaration exactly as the never-stopping reference traversal does. -/
theorem claim10_visit_always_returns_true :
    (∀ (m : ComplexityMap) (f : FunctionDecl) (r : ComplexityMap × Bool),
        VisitFunctionDecl m f = some r → r.2 = true) ∧
    (∀ (m : ComplexityMap) (decls : List FunctionDecl),
        runWalker m decls = runWalkerAll m decls) := by
  constructor
  · intro m f r h
    obtain ⟨m', b⟩ := r
    exact (visit_result h).1
  · exact runWalker_eq_runWalkerAll

theorem claim10_witness :
    (([("ok", 1)] : ComplexityMap), true).2 = true :=
  claim10_visit_always_returns_true.1 [] okFunc ([("ok", 1)], true) (by decide)

end CCPlugin
